import Mathlib

/-! findmetrics: the extraction engine of `internal/finder/finder.go`.

A shallow embedding of the functions of `finder.go` that inspect a parsed Go
file: `trimDoubleQuotes`, `parseKV`, `handleVectorDesc`, `handleDesc`,
`parseMetricType` and the closure that `FindPrometheusMetrics` hands to
`ast.Inspect`.

* Go strings are Lean strings. Every string operation the code performs cuts at
  the ASCII double quote, so working on characters instead of bytes gives the
  same result on the UTF-8 text a parsed file consists of.
* A run-time panic (failed type assertion, index out of range, nil dereference)
  is an `Except.error`; nothing in the scanned code recovers from a panic.
* The slice `descs` the closure appends to is threaded through `Inspect`.
-/

namespace Finder

/-- The three kinds of run-time panic the scanned functions can raise. -/
inductive Panic where
  | nilDereference
  | indexOutOfRange
  | typeAssertion
  deriving DecidableEq, Repr

/-- The `token.Token` kinds a `*ast.BasicLit` can carry. -/
inductive Token where
  | INT
  | FLOAT
  | IMAG
  | CHAR
  | STRING
  deriving DecidableEq, Repr

/-- The part of `go/ast` the code looks at. The node kinds the code tells apart
have a constructor of their own; every other kind of node (file, declaration,
statement, other expression) is `Other`, with its children in the order
`ast.Walk` visits them.

`Ident.Obj` is `none` for a nil `*ast.Object` (an identifier the parser could not
resolve inside the file) and `some d` when `Obj.Decl` is the node `d`; `ast.Walk` does
not descend into it. `SelectorExpr.Sel` is the name of the selected identifier, a leaf
on which the closure does nothing. -/
inductive Node where
  | Ident (Name : String) (Obj : Option Node)
  | BasicLit (Kind : Token) (Value : String)
  | CompositeLit (Typ : Option Node) (Elts : List Node)
  | SelectorExpr (X : Node) (Sel : String)
  | CallExpr (Fun : Node) (Args : List Node)
  | KeyValueExpr (Key : Node) (Value : Node)
  | ValueSpec (Names : List Node) (Typ : Option Node) (Values : List Node)
  | Field (Names : List Node) (Typ : Option Node)
  | Other (children : List Node)

/-- The record `Desc` of `finder.go`; the field `Type` is spelled `Typ`. -/
structure Desc where
  Name : String
  Namespace : String
  Subsystem : String
  Help : String
  Labels : List String
  Typ : String
  deriving DecidableEq, Repr

/-- The zero value of `Desc` (`var desc Desc`). -/
def Desc.zero : Desc :=
  { Name := "", Namespace := "", Subsystem := "", Help := "", Labels := [], Typ := "" }

/-- The double quote character. -/
def dq : Char := Char.ofNat 34

/-- The back quote character, which delimits a raw string literal. -/
def bq : Char := Char.ofNat 96

/-- The one-character string holding a double quote. -/
def dquote : String := String.singleton dq

/-- The one-character string holding a back quote. -/
def bquote : String := String.singleton bq

/-- Go `strings.TrimPrefix`, on the characters of the strings. -/
def TrimPrefix (s pre : List Char) : List Char :=
  if pre.isPrefixOf s then s.drop pre.length else s

/-- Go `strings.TrimSuffix`, on the characters of the strings. -/
def TrimSuffix (s suf : List Char) : List Char :=
  if suf.isSuffixOf s then s.take (s.length - suf.length) else s

/-- Function `trimDoubleQuotes`: one leading and then one trailing double quote removed. -/
def trimDoubleQuotes (s : String) : String :=
  String.mk (TrimSuffix (TrimPrefix s.data [dq]) [dq])

/-- Function `parseKV`. The result pairs the string with the flag `ok`. -/
def parseKV (kv : Node) : Except Panic (String × Bool) :=
  match kv with
  | .BasicLit _ value => .ok (trimDoubleQuotes value, true)
  | .Ident _ obj =>
    match obj with
    | none => .error .nilDereference
    | some (.ValueSpec _ _ values) =>
      match values with
      | [] => .error .indexOutOfRange
      | .BasicLit _ value :: _ => .ok (trimDoubleQuotes value, true)
      | _ :: _ => .error .typeAssertion
    | some (.Field _ _) => .ok ("", false)
    | some _ => .ok ("", false)
  | _ => .ok ("", false)

/-- The body of the first loop of `handleVectorDesc`, for one element `elt` of `opts`:
the updated `desc` and the local `ok` after the switch on the key name. -/
def optStep (desc : Desc) (elt : Node) : Except Panic (Desc × Bool) :=
  match elt with
  | .KeyValueExpr (.Ident key _) value =>
    if key = "Name" then
      match parseKV value with
      | .error p => .error p
      | .ok (s, ok) => .ok ({ desc with Name := s }, ok)
    else if key = "Subsystem" then
      match parseKV value with
      | .error p => .error p
      | .ok (s, ok) => .ok ({ desc with Subsystem := s }, ok)
    else if key = "Namespace" then
      match parseKV value with
      | .error p => .error p
      | .ok (s, ok) => .ok ({ desc with Namespace := s }, ok)
    else if key = "Help" then
      match parseKV value with
      | .error p => .error p
      | .ok (s, ok) => .ok ({ desc with Help := s }, ok)
    else .ok (desc, false)
  | _ => .error .typeAssertion

/-- The first loop of `handleVectorDesc` (`for _, elt := range opts`): it stops with
`false` at the first element that leaves `ok` unset. -/
def optsLoop : List Node → Desc → Except Panic (Desc × Bool)
  | [], desc => .ok (desc, true)
  | elt :: rest, desc =>
    match optStep desc elt with
    | .error p => .error p
    | .ok (desc1, ok) => if ok then optsLoop rest desc1 else .ok (desc1, false)

/-- The second loop of `handleVectorDesc` (`for _, elt := range labels`), appending to
`labelNames`. -/
def labelsLoop : List Node → List String → Except Panic (List String)
  | [], labelNames => .ok labelNames
  | .BasicLit _ value :: rest, labelNames =>
    labelsLoop rest (labelNames ++ [trimDoubleQuotes value])
  | _ :: _, _ => .error .typeAssertion

/-- Function `handleVectorDesc`. -/
def handleVectorDesc (opts : List Node) (labels : List Node) : Except Panic (Desc × Bool) :=
  match optsLoop opts Desc.zero with
  | .error p => .error p
  | .ok (desc, false) => .ok (desc, false)
  | .ok (desc, true) =>
    match labelsLoop labels [] with
    | .error p => .error p
    | .ok labelNames => .ok ({ desc with Labels := labelNames }, true)

/-- Function `handleDesc`: `handleVectorDesc` with a nil `labels` slice. -/
def handleDesc (opts : List Node) : Except Panic (Desc × Bool) :=
  handleVectorDesc opts []

/-- Function `parseMetricType`. -/
def parseMetricType (name : String) : String :=
  if name = "NewGauge" then "gauge"
  else if name = "NewGaugeVec" then "gauge_vector"
  else if name = "NewGaugeFunc" then "gauge_func"
  else if name = "NewCounter" then "counter"
  else if name = "NewCounterVec" then "counter_vector"
  else if name = "NewCounterFunc" then "counter_func"
  else if name = "NewHistogram" then "histogram"
  else if name = "NewHistogramVec" then "histogram_vector"
  else if name = "NewHistogramFunc" then "histogram_func"
  else if name = "NewSummary" then "summary"
  else if name = "NewSummaryVec" then "summary_vector"
  else if name = "NewSummaryFunc" then "summary_func"
  else "unknown"

/-- The names of the first `case` of the switch on `fun.Sel.Name`. -/
def plainNames : List String :=
  ["NewGauge", "NewGaugeFunc", "NewCounter", "NewCounterFunc",
   "NewHistogram", "NewHistogramFunc", "NewSummary", "NewSummaryFunc"]

/-- The names of the second `case` of the switch on `fun.Sel.Name`. -/
def vecNames : List String :=
  ["NewGaugeVec", "NewCounterVec", "NewHistogramVec", "NewSummaryVec"]

/-- What the call to `handleDesc` or `handleVectorDesc` and the `if ok` after it
contribute: the Desc stamped with its type, or nothing. -/
def emit (sel : String) (r : Except Panic (Desc × Bool)) : Except Panic (Option Desc) :=
  match r with
  | .error p => .error p
  | .ok (desc, true) => .ok (some { desc with Typ := parseMetricType sel })
  | .ok (_, false) => .ok none

/-- The closure `FindPrometheusMetrics` passes to `ast.Inspect`, at one node: the Desc it
appends to `descs`, if any. The closure returns `true` on every path. -/
def visit (node : Node) : Except Panic (Option Desc) :=
  match node with
  | .CallExpr (.SelectorExpr (.Ident module _) sel) args =>
    if ¬ (module = "prometheus" ∨ module = "promauto") then .ok none
    else if sel ∈ plainNames then
      match args with
      | [] => .ok none
      | .CompositeLit _ elts :: _ => emit sel (handleDesc elts)
      | _ :: _ => .ok none
    else if sel ∈ vecNames then
      match args with
      | [] => .ok none
      | .CompositeLit _ elts :: rest =>
        match rest with
        | [] => .error .indexOutOfRange
        | .CompositeLit _ labels :: _ => emit sel (handleVectorDesc elts labels)
        | _ :: _ => .ok none
      | _ :: _ => .ok none
    else .ok none
  | _ => .ok none

mutual
/-- Function `ast.Inspect` with the closure above, which never stops the descent: the
node is visited, then its children in the order of `ast.Walk`. -/
def Inspect (node : Node) (descs : List Desc) : Except Panic (List Desc) :=
  match visit node with
  | .error p => .error p
  | .ok r =>
    match node with
    | .Ident _ _ => .ok (descs ++ r.toList)
    | .BasicLit _ _ => .ok (descs ++ r.toList)
    | .CompositeLit typ elts =>
      match InspectOpt typ (descs ++ r.toList) with
      | .error p => .error p
      | .ok descs1 => InspectList elts descs1
    | .SelectorExpr x _ => Inspect x (descs ++ r.toList)
    | .CallExpr fn args =>
      match Inspect fn (descs ++ r.toList) with
      | .error p => .error p
      | .ok descs1 => InspectList args descs1
    | .KeyValueExpr key value =>
      match Inspect key (descs ++ r.toList) with
      | .error p => .error p
      | .ok descs1 => Inspect value descs1
    | .ValueSpec names typ values =>
      match InspectList names (descs ++ r.toList) with
      | .error p => .error p
      | .ok descs1 =>
        match InspectOpt typ descs1 with
        | .error p => .error p
        | .ok descs2 => InspectList values descs2
    | .Field names typ =>
      match InspectList names (descs ++ r.toList) with
      | .error p => .error p
      | .ok descs1 => InspectOpt typ descs1
    | .Other children => InspectList children (descs ++ r.toList)
/-- Walking a child that may be nil. -/
def InspectOpt (node : Option Node) (descs : List Desc) : Except Panic (List Desc) :=
  match node with
  | none => .ok descs
  | some n => Inspect n descs
/-- Walking a list of children, left to right. -/
def InspectList (nodes : List Node) (descs : List Desc) : Except Panic (List Desc) :=
  match nodes with
  | [] => .ok descs
  | n :: rest =>
    match Inspect n descs with
    | .error p => .error p
    | .ok descs1 => InspectList rest descs1
end

mutual
/-- The nodes of a tree in the order `ast.Walk` reaches them: the node, then the nodes of
its children from left to right. -/
def preorder (node : Node) : List Node :=
  match node with
  | .Ident n o => [.Ident n o]
  | .BasicLit k v => [.BasicLit k v]
  | .CompositeLit typ elts => .CompositeLit typ elts :: (preorderOpt typ ++ preorderList elts)
  | .SelectorExpr x s => .SelectorExpr x s :: preorder x
  | .CallExpr fn args => .CallExpr fn args :: (preorder fn ++ preorderList args)
  | .KeyValueExpr key value => .KeyValueExpr key value :: (preorder key ++ preorder value)
  | .ValueSpec names typ values =>
    .ValueSpec names typ values :: (preorderList names ++ (preorderOpt typ ++ preorderList values))
  | .Field names typ => .Field names typ :: (preorderList names ++ preorderOpt typ)
  | .Other children => .Other children :: preorderList children
/-- The nodes below a child that may be nil. -/
def preorderOpt (node : Option Node) : List Node :=
  match node with
  | none => []
  | some n => preorder n
/-- The nodes below a list of children. -/
def preorderList (nodes : List Node) : List Node :=
  match nodes with
  | [] => []
  | n :: rest => preorder n ++ preorderList rest
end

/-- The closure applied to a sequence of nodes in turn, appending to `descs`. -/
def visitAll : List Node → List Desc → Except Panic (List Desc)
  | [], descs => .ok descs
  | n :: rest, descs =>
    match visit n with
    | .error p => .error p
    | .ok r => visitAll rest (descs ++ r.toList)

/-- One iteration of the first loop of `handleVectorDesc` on the state the loop has
reached: a panic or a `false` already returned stays. -/
def optsFold (r : Except Panic (Desc × Bool)) (elt : Node) : Except Panic (Desc × Bool) :=
  match r with
  | .ok (desc, true) => optStep desc elt
  | r => r

/-- Go `strings.HasSuffix`, on the characters of the strings. -/
def HasSuffix (s suffix : String) : Bool :=
  suffix.data.isSuffixOf s.data

/-- Function `isGoSourceCodeFile`. -/
def isGoSourceCodeFile (path : String) : Bool :=
  if HasSuffix path ".go" && !HasSuffix path "_test.go" then true else false

/-- Following the words of the specification: the Desc of a call that matches and builds
successfully, and nothing for any other node. -/
def builtDesc (node : Node) : Option Desc :=
  match visit node with
  | .ok r => r
  | .error _ => none

/-! ## The traversal as a fold over the nodes in visiting order -/

theorem visitAll_append (xs ys : List Node) (descs : List Desc) :
    visitAll (xs ++ ys) descs =
      match visitAll xs descs with
      | .error p => .error p
      | .ok descs1 => visitAll ys descs1 := by
  induction xs generalizing descs with
  | nil => simp [visitAll]
  | cons x xs ih =>
    simp only [List.cons_append, visitAll]
    cases visit x with
    | error p => simp
    | ok r => simp [ih]

mutual
theorem Inspect_eq_visitAll : ∀ (node : Node) (descs : List Desc),
    Inspect node descs = visitAll (preorder node) descs
  | .Ident n o, descs => by
    rw [Inspect, preorder, visitAll]
    cases visit (.Ident n o) <;> simp [visitAll]
  | .BasicLit k v, descs => by
    rw [Inspect, preorder, visitAll]
    cases visit (.BasicLit k v) <;> simp [visitAll]
  | .CompositeLit typ elts, descs => by
    rw [Inspect, preorder, visitAll]
    cases visit (.CompositeLit typ elts) with
    | error p => rfl
    | ok r =>
      simp only [visitAll_append, InspectOpt_eq_visitAll typ, InspectList_eq_visitAll elts]
  | .SelectorExpr x s, descs => by
    rw [Inspect, preorder, visitAll]
    cases visit (.SelectorExpr x s) with
    | error p => rfl
    | ok r => simp only [Inspect_eq_visitAll x]
  | .CallExpr fn args, descs => by
    rw [Inspect, preorder, visitAll]
    cases visit (.CallExpr fn args) with
    | error p => rfl
    | ok r =>
      simp only [visitAll_append, Inspect_eq_visitAll fn, InspectList_eq_visitAll args]
  | .KeyValueExpr key value, descs => by
    rw [Inspect, preorder, visitAll]
    cases visit (.KeyValueExpr key value) with
    | error p => rfl
    | ok r =>
      simp only [visitAll_append, Inspect_eq_visitAll key, Inspect_eq_visitAll value]
  | .ValueSpec names typ values, descs => by
    rw [Inspect, preorder, visitAll]
    cases visit (.ValueSpec names typ values) with
    | error p => rfl
    | ok r =>
      simp only [visitAll_append, InspectList_eq_visitAll names, InspectOpt_eq_visitAll typ,
        InspectList_eq_visitAll values]
  | .Field names typ, descs => by
    rw [Inspect, preorder, visitAll]
    cases visit (.Field names typ) with
    | error p => rfl
    | ok r =>
      simp only [visitAll_append, InspectList_eq_visitAll names, InspectOpt_eq_visitAll typ]
  | .Other children, descs => by
    rw [Inspect, preorder, visitAll]
    cases visit (.Other children) with
    | error p => rfl
    | ok r => simp only [InspectList_eq_visitAll children]
theorem InspectOpt_eq_visitAll : ∀ (node : Option Node) (descs : List Desc),
    InspectOpt node descs = visitAll (preorderOpt node) descs
  | none, descs => by simp [InspectOpt, preorderOpt, visitAll]
  | some n, descs => by simp only [InspectOpt, preorderOpt, Inspect_eq_visitAll n]
theorem InspectList_eq_visitAll : ∀ (nodes : List Node) (descs : List Desc),
    InspectList nodes descs = visitAll (preorderList nodes) descs
  | [], descs => by simp [InspectList, preorderList, visitAll]
  | n :: rest, descs => by
    rw [InspectList, preorderList, visitAll_append, Inspect_eq_visitAll n]
    cases visitAll (preorder n) descs with
    | error p => rfl
    | ok r => simp only [InspectList_eq_visitAll rest]
end

/-! ## Helper lemmas on the closure and on quoting -/

theorem TrimPrefix_cons (c : Char) (s : List Char) : TrimPrefix (c :: s) [c] = s := by
  simp [TrimPrefix, List.isPrefixOf]

theorem TrimSuffix_snoc (c : Char) (s : List Char) : TrimSuffix (s ++ [c]) [c] = s := by
  simp [TrimSuffix]

theorem trimDoubleQuotes_quoted (t : String) :
    trimDoubleQuotes (dquote ++ t ++ dquote) = t := by
  have h : (dquote ++ t ++ dquote).data = dq :: (t.data ++ [dq]) := by
    simp [dquote, String.singleton]
  simp [trimDoubleQuotes, h, TrimPrefix_cons, TrimSuffix_snoc]

theorem emit_some (sel : String) (r : Except Panic (Desc × Bool)) (d : Desc)
    (h : emit sel r = .ok (some d)) :
    ∃ desc, r = .ok (desc, true) ∧ d = { desc with Typ := parseMetricType sel } := by
  unfold emit at h
  split at h <;> simp at h
  exact ⟨_, rfl, h.symm⟩

theorem visit_some (node : Node) (d : Desc) (h : visit node = .ok (some d)) :
    ∃ module obj sel args,
      node = .CallExpr (.SelectorExpr (.Ident module obj) sel) args ∧
      (module = "prometheus" ∨ module = "promauto") ∧
      (sel ∈ plainNames ∨ sel ∈ vecNames) ∧
      d.Typ = parseMetricType sel := by
  unfold visit at h
  split at h
  · rename_i module obj sel args
    refine ⟨module, obj, sel, args, rfl, ?_⟩
    by_cases h1 : module = "prometheus" ∨ module = "promauto"
    · refine ⟨h1, ?_⟩
      simp only [h1, not_true_eq_false, if_false] at h
      by_cases h2 : sel ∈ plainNames
      · refine ⟨Or.inl h2, ?_⟩
        simp only [h2, if_true] at h
        split at h
        · simp at h
        · obtain ⟨desc, -, rfl⟩ := emit_some _ _ _ h
          rfl
        · simp at h
      · simp only [h2, if_false] at h
        by_cases h3 : sel ∈ vecNames
        · refine ⟨Or.inr h3, ?_⟩
          simp only [h3, if_true] at h
          split at h
          · simp at h
          · split at h
            · simp at h
            · obtain ⟨desc, -, rfl⟩ := emit_some _ _ _ h
              rfl
            · simp at h
          · simp at h
        · simp [h3] at h
    · simp [h1] at h
  · simp at h

/-! ## Claims on the call matcher and the metric type -/

theorem visitAll_mem (xs : List Node) (descs out : List Desc) (h : visitAll xs descs = .ok out)
    (d : Desc) (hd : d ∈ out) : d ∈ descs ∨ ∃ n ∈ xs, visit n = .ok (some d) := by
  induction xs generalizing descs with
  | nil =>
    simp only [visitAll, Except.ok.injEq] at h
    subst h
    exact Or.inl hd
  | cons x xs ih =>
    rw [visitAll] at h
    cases hv : visit x with
    | error p => simp [hv] at h
    | ok r =>
      simp only [hv] at h
      rcases ih _ h with h1 | ⟨n, hn, hvn⟩
      · rcases List.mem_append.mp h1 with h2 | h2
        · exact Or.inl h2
        · refine Or.inr ⟨x, List.mem_cons_self _ _, ?_⟩
          cases r with
          | none => simp at h2
          | some e =>
            simp only [Option.toList, List.mem_singleton] at h2
            rw [hv, h2]
      · exact Or.inr ⟨n, List.mem_cons_of_mem _ hn, hvn⟩

theorem parseMetricType_unknown (name : String) :
    parseMetricType name = "unknown" ↔
      name ∉ ["NewGauge", "NewGaugeFunc", "NewGaugeVec", "NewCounter", "NewCounterFunc",
        "NewCounterVec", "NewHistogram", "NewHistogramFunc", "NewHistogramVec", "NewSummary",
        "NewSummaryFunc", "NewSummaryVec"] := by
  constructor
  · intro h hmem
    simp only [List.mem_cons, List.mem_singleton, List.not_mem_nil, or_false] at hmem
    rcases hmem with rfl | rfl | rfl | rfl | rfl | rfl | rfl | rfl | rfl | rfl | rfl | rfl <;>
      exact absurd h (by decide)
  · intro h
    simp only [List.mem_cons, List.mem_singleton, List.not_mem_nil, or_false, not_or] at h
    obtain ⟨h1, h2, h3, h4, h5, h6, h7, h8, h9, h10, h11, h12⟩ := h
    simp only [parseMetricType, h1, h2, h3, h4, h5, h6, h7, h8, h9, h10, h11, h12, if_false]

theorem parseMetricType_of_mem (sel : String) (h : sel ∈ plainNames ∨ sel ∈ vecNames) :
    parseMetricType sel ≠ "unknown" ∧
      parseMetricType sel ∈ ["gauge", "gauge_vector", "gauge_func", "counter", "counter_vector",
        "counter_func", "histogram", "histogram_vector", "histogram_func", "summary",
        "summary_vector", "summary_func"] := by
  simp only [plainNames, vecNames, List.mem_cons, List.mem_singleton, List.not_mem_nil,
    or_false] at h
  rcases h with (rfl | rfl | rfl | rfl | rfl | rfl | rfl | rfl) | (rfl | rfl | rfl | rfl) <;>
    exact ⟨by decide, by decide⟩

/-- C1: at a call expression the closure yields a Desc only if the call target is a
selector `X.Sel` whose `X` is an identifier named `prometheus` or `promauto` and whose
`Sel` is one of the twelve constructor names; for every other target it yields no Desc. -/
theorem visit_call_target (fn : Node) (args : List Node) :
    (∀ d, visit (.CallExpr fn args) = .ok (some d) →
      ∃ module obj sel, fn = .SelectorExpr (.Ident module obj) sel ∧
        (module = "prometheus" ∨ module = "promauto") ∧
        sel ∈ ["NewGauge", "NewGaugeFunc", "NewGaugeVec", "NewCounter", "NewCounterFunc",
          "NewCounterVec", "NewHistogram", "NewHistogramFunc", "NewHistogramVec", "NewSummary",
          "NewSummaryFunc", "NewSummaryVec"]) ∧
    ((¬ ∃ module obj sel, fn = .SelectorExpr (.Ident module obj) sel ∧
        (module = "prometheus" ∨ module = "promauto") ∧
        sel ∈ ["NewGauge", "NewGaugeFunc", "NewGaugeVec", "NewCounter", "NewCounterFunc",
          "NewCounterVec", "NewHistogram", "NewHistogramFunc", "NewHistogramVec", "NewSummary",
          "NewSummaryFunc", "NewSummaryVec"]) →
      visit (.CallExpr fn args) = .ok none) := by
  have key : ∀ d, visit (.CallExpr fn args) = .ok (some d) →
      ∃ module obj sel, fn = .SelectorExpr (.Ident module obj) sel ∧
        (module = "prometheus" ∨ module = "promauto") ∧
        sel ∈ ["NewGauge", "NewGaugeFunc", "NewGaugeVec", "NewCounter", "NewCounterFunc",
          "NewCounterVec", "NewHistogram", "NewHistogramFunc", "NewHistogramVec", "NewSummary",
          "NewSummaryFunc", "NewSummaryVec"] := by
    intro d h
    obtain ⟨module, obj, sel, args1, hn, hm, hs, -⟩ := visit_some _ d h
    simp only [Node.CallExpr.injEq] at hn
    refine ⟨module, obj, sel, hn.1, hm, ?_⟩
    simp only [plainNames, vecNames, List.mem_cons, List.mem_singleton, List.not_mem_nil,
      or_false] at hs ⊢
    tauto
  refine ⟨key, fun hno => ?_⟩
  unfold visit
  split
  · rename_i module obj sel args1 heq
    simp only [Node.CallExpr.injEq] at heq
    obtain ⟨hfn, -⟩ := heq
    by_cases h1 : module = "prometheus" ∨ module = "promauto"
    · have hs : sel ∉ plainNames ∧ sel ∉ vecNames := by
        constructor <;> intro hmem <;> apply hno <;> refine ⟨module, obj, sel, hfn, h1, ?_⟩ <;>
          simp only [plainNames, vecNames, List.mem_cons, List.mem_singleton, List.not_mem_nil,
            or_false] at hmem ⊢ <;> tauto
      simp [h1, hs.1, hs.2]
    · simp [h1]
  · rfl

theorem visit_call_target_witness :
    (∃ module obj sel,
      Node.SelectorExpr (.Ident "promauto" none) "NewCounter" =
        .SelectorExpr (.Ident module obj) sel ∧
      (module = "prometheus" ∨ module = "promauto") ∧
      sel ∈ ["NewGauge", "NewGaugeFunc", "NewGaugeVec", "NewCounter", "NewCounterFunc",
        "NewCounterVec", "NewHistogram", "NewHistogramFunc", "NewHistogramVec", "NewSummary",
        "NewSummaryFunc", "NewSummaryVec"]) ∧
    visit (.CallExpr (.SelectorExpr (.Ident "metrics" none) "NewCounter")
        [.CompositeLit none
          [.KeyValueExpr (.Ident "Name" none) (.BasicLit .STRING (dquote ++ "x" ++ dquote))]]) =
      .ok none :=
  ⟨(visit_call_target (.SelectorExpr (.Ident "promauto" none) "NewCounter")
      [.CompositeLit none
        [.KeyValueExpr (.Ident "Name" none) (.BasicLit .STRING (dquote ++ "x" ++ dquote))]]).1
      { Name := "x", Namespace := "", Subsystem := "", Help := "", Labels := [],
        Typ := "counter" } rfl,
   (visit_call_target (.SelectorExpr (.Ident "metrics" none) "NewCounter")
      [.CompositeLit none
        [.KeyValueExpr (.Ident "Name" none) (.BasicLit .STRING (dquote ++ "x" ++ dquote))]]).2
      (by simp)⟩

/-- C2: a Desc the closure emits at a call `X.Sel(...)` has `Type = parseMetricType Sel`;
every Desc in the result of the traversal of a file has one of the twelve types other than
`unknown`; `parseMetricType` maps the twelve constructor names as the table says and
returns `unknown` exactly for the names outside the twelve. -/
theorem emitted_type_of_constructor :
    (∀ (x : Node) (sel : String) (args : List Node) (d : Desc),
      visit (.CallExpr (.SelectorExpr x sel) args) = .ok (some d) →
        d.Typ = parseMetricType sel) ∧
    (∀ (file : Node) (out : List Desc), Inspect file [] = .ok out →
      ∀ d ∈ out, d.Typ ≠ "unknown" ∧
        d.Typ ∈ ["gauge", "gauge_vector", "gauge_func", "counter", "counter_vector",
          "counter_func", "histogram", "histogram_vector", "histogram_func", "summary",
          "summary_vector", "summary_func"]) ∧
    (parseMetricType "NewGauge" = "gauge" ∧ parseMetricType "NewGaugeVec" = "gauge_vector" ∧
      parseMetricType "NewGaugeFunc" = "gauge_func" ∧
      parseMetricType "NewCounter" = "counter" ∧
      parseMetricType "NewCounterVec" = "counter_vector" ∧
      parseMetricType "NewCounterFunc" = "counter_func" ∧
      parseMetricType "NewHistogram" = "histogram" ∧
      parseMetricType "NewHistogramVec" = "histogram_vector" ∧
      parseMetricType "NewHistogramFunc" = "histogram_func" ∧
      parseMetricType "NewSummary" = "summary" ∧
      parseMetricType "NewSummaryVec" = "summary_vector" ∧
      parseMetricType "NewSummaryFunc" = "summary_func") ∧
    (∀ name : String, parseMetricType name = "unknown" ↔
      name ∉ ["NewGauge", "NewGaugeFunc", "NewGaugeVec", "NewCounter", "NewCounterFunc",
        "NewCounterVec", "NewHistogram", "NewHistogramFunc", "NewHistogramVec", "NewSummary",
        "NewSummaryFunc", "NewSummaryVec"]) := by
  refine ⟨?_, ?_, ?_, parseMetricType_unknown⟩
  · intro x sel args d h
    obtain ⟨module, obj, sel1, args1, hn, -, -, ht⟩ := visit_some _ d h
    simp only [Node.CallExpr.injEq, Node.SelectorExpr.injEq] at hn
    rw [ht, hn.1.2]
  · intro file out h d hd
    rw [Inspect_eq_visitAll] at h
    rcases visitAll_mem _ _ _ h d hd with h1 | ⟨n, -, hv⟩
    · simp at h1
    · obtain ⟨module, obj, sel, args, -, -, hs, ht⟩ := visit_some _ d hv
      rw [ht]
      exact parseMetricType_of_mem sel hs
  · decide

theorem emitted_type_of_constructor_witness :
    ∀ d ∈ [({ Name := "latency", Namespace := "", Subsystem := "", Help := "h",
              Labels := ["a", "b"], Typ := "histogram_vector" } : Desc)],
      d.Typ ≠ "unknown" ∧
        d.Typ ∈ ["gauge", "gauge_vector", "gauge_func", "counter", "counter_vector",
          "counter_func", "histogram", "histogram_vector", "histogram_func", "summary",
          "summary_vector", "summary_func"] :=
  emitted_type_of_constructor.2.1
    (.Other [.CallExpr (.SelectorExpr (.Ident "prometheus" none) "NewHistogramVec")
      [.CompositeLit (some (.SelectorExpr (.Ident "prometheus" none) "HistogramOpts"))
        [.KeyValueExpr (.Ident "Name" none) (.BasicLit .STRING (dquote ++ "latency" ++ dquote)),
         .KeyValueExpr (.Ident "Help" none) (.BasicLit .STRING (dquote ++ "h" ++ dquote))],
       .CompositeLit (some (.Other [.Ident "string" none]))
        [.BasicLit .STRING (dquote ++ "a" ++ dquote),
         .BasicLit .STRING (dquote ++ "b" ++ dquote)]]])
    _ rfl

/-! ## Claims on the description builder and the literal resolver -/

theorem optsFold_stop_error (p : Panic) (opts : List Node) :
    opts.foldl optsFold (.error p) = .error p := by
  induction opts with
  | nil => rfl
  | cons x xs ih => simpa [List.foldl, optsFold] using ih

theorem optsFold_stop_false (d : Desc) (opts : List Node) :
    opts.foldl optsFold (.ok (d, false)) = .ok (d, false) := by
  induction opts with
  | nil => rfl
  | cons x xs ih => simpa [List.foldl, optsFold] using ih

theorem optsLoop_eq_foldl (opts : List Node) (desc : Desc) :
    optsLoop opts desc = opts.foldl optsFold (.ok (desc, true)) := by
  induction opts generalizing desc with
  | nil => rfl
  | cons x xs ih =>
    rw [optsLoop, List.foldl_cons]
    have : optsFold (.ok (desc, true)) x = optStep desc x := rfl
    rw [this]
    cases h : optStep desc x with
    | error p => simp [optsFold_stop_error]
    | ok r =>
      obtain ⟨d1, b⟩ := r
      cases b with
      | true => simp [ih]
      | false => simp [optsFold_stop_false]

theorem optStep_Name (d : Desc) (o : Option Node) (t : String) :
    optStep d (.KeyValueExpr (.Ident "Name" o) (.BasicLit .STRING (dquote ++ t ++ dquote))) =
      .ok ({ d with Name := t }, true) := by
  simp [optStep, parseKV, trimDoubleQuotes_quoted]

theorem optStep_Namespace (d : Desc) (o : Option Node) (t : String) :
    optStep d (.KeyValueExpr (.Ident "Namespace" o) (.BasicLit .STRING (dquote ++ t ++ dquote))) =
      .ok ({ d with Namespace := t }, true) := by
  simp [optStep, parseKV, trimDoubleQuotes_quoted]

theorem optStep_Subsystem (d : Desc) (o : Option Node) (t : String) :
    optStep d (.KeyValueExpr (.Ident "Subsystem" o) (.BasicLit .STRING (dquote ++ t ++ dquote))) =
      .ok ({ d with Subsystem := t }, true) := by
  simp [optStep, parseKV, trimDoubleQuotes_quoted]

theorem optStep_Help (d : Desc) (o : Option Node) (t : String) :
    optStep d (.KeyValueExpr (.Ident "Help" o) (.BasicLit .STRING (dquote ++ t ++ dquote))) =
      .ok ({ d with Help := t }, true) := by
  simp [optStep, parseKV, trimDoubleQuotes_quoted]

theorem optsFold_comm (o1 o2 o3 o4 : Option Node) (n ns ss h : String) (x y : Node)
    (hx : x ∈
      [.KeyValueExpr (.Ident "Name" o1) (.BasicLit .STRING (dquote ++ n ++ dquote)),
       .KeyValueExpr (.Ident "Namespace" o2) (.BasicLit .STRING (dquote ++ ns ++ dquote)),
       .KeyValueExpr (.Ident "Subsystem" o3) (.BasicLit .STRING (dquote ++ ss ++ dquote)),
       .KeyValueExpr (.Ident "Help" o4) (.BasicLit .STRING (dquote ++ h ++ dquote))])
    (hy : y ∈
      [.KeyValueExpr (.Ident "Name" o1) (.BasicLit .STRING (dquote ++ n ++ dquote)),
       .KeyValueExpr (.Ident "Namespace" o2) (.BasicLit .STRING (dquote ++ ns ++ dquote)),
       .KeyValueExpr (.Ident "Subsystem" o3) (.BasicLit .STRING (dquote ++ ss ++ dquote)),
       .KeyValueExpr (.Ident "Help" o4) (.BasicLit .STRING (dquote ++ h ++ dquote))])
    (z : Except Panic (Desc × Bool)) :
    optsFold (optsFold z x) y = optsFold (optsFold z y) x := by
  rcases z with p | ⟨d, b⟩
  · rfl
  · cases b with
    | false => rfl
    | true =>
      simp only [List.mem_cons, List.mem_singleton, List.not_mem_nil, or_false] at hx hy
      rcases hx with rfl | rfl | rfl | rfl <;> rcases hy with rfl | rfl | rfl | rfl <;>
        simp only [optsFold, optStep_Name, optStep_Namespace, optStep_Subsystem, optStep_Help]

/-- C3: for an option list made of the four keys `Name`, `Namespace`, `Subsystem` and `Help`
in any order, each with a double-quoted string literal as value, `handleDesc` returns
`ok = true`, the four fields equal to the texts between the quotes, and no labels. -/
theorem handleDesc_four_literals (opts : List Node) (o1 o2 o3 o4 : Option Node)
    (n ns ss h : String)
    (hperm : opts.Perm
      [.KeyValueExpr (.Ident "Name" o1) (.BasicLit .STRING (dquote ++ n ++ dquote)),
       .KeyValueExpr (.Ident "Namespace" o2) (.BasicLit .STRING (dquote ++ ns ++ dquote)),
       .KeyValueExpr (.Ident "Subsystem" o3) (.BasicLit .STRING (dquote ++ ss ++ dquote)),
       .KeyValueExpr (.Ident "Help" o4) (.BasicLit .STRING (dquote ++ h ++ dquote))]) :
    handleDesc opts =
      .ok ({ Name := n, Namespace := ns, Subsystem := ss, Help := h, Labels := [], Typ := "" },
        true) := by
  have hloop : optsLoop opts Desc.zero =
      .ok ({ Name := n, Namespace := ns, Subsystem := ss, Help := h, Labels := [], Typ := "" },
        true) := by
    rw [optsLoop_eq_foldl, List.Perm.foldl_eq' hperm
      (fun x hx y hy z => optsFold_comm o1 o2 o3 o4 n ns ss h x y (hperm.subset hx)
        (hperm.subset hy) z)]
    simp only [List.foldl, optsFold, optStep_Name, optStep_Namespace, optStep_Subsystem,
      optStep_Help, Desc.zero]
  simp [handleDesc, handleVectorDesc, hloop, labelsLoop]

theorem handleDesc_four_literals_witness :
    handleDesc
        [.KeyValueExpr (.Ident "Help" none) (.BasicLit .STRING (dquote ++ "Total" ++ dquote)),
         .KeyValueExpr (.Ident "Name" none) (.BasicLit .STRING (dquote ++ "orders" ++ dquote)),
         .KeyValueExpr (.Ident "Namespace" none) (.BasicLit .STRING (dquote ++ "shop" ++ dquote)),
         .KeyValueExpr (.Ident "Subsystem" none) (.BasicLit .STRING (dquote ++ "api" ++ dquote))] =
      .ok ({ Name := "orders", Namespace := "shop", Subsystem := "api", Help := "Total",
             Labels := [], Typ := "" }, true) :=
  handleDesc_four_literals _ none none none none "orders" "shop" "api" "Total"
    (@List.perm_append_comm Node
      [.KeyValueExpr (.Ident "Help" none) (.BasicLit .STRING (dquote ++ "Total" ++ dquote))]
      [.KeyValueExpr (.Ident "Name" none) (.BasicLit .STRING (dquote ++ "orders" ++ dquote)),
       .KeyValueExpr (.Ident "Namespace" none) (.BasicLit .STRING (dquote ++ "shop" ++ dquote)),
       .KeyValueExpr (.Ident "Subsystem" none) (.BasicLit .STRING (dquote ++ "api" ++ dquote))])

theorem labelsLoop_literals (ts : List String) (acc : List String) :
    labelsLoop (ts.map fun t => .BasicLit .STRING (dquote ++ t ++ dquote)) acc =
      .ok (acc ++ ts) := by
  induction ts generalizing acc with
  | nil => simp [labelsLoop]
  | cons t ts ih => simp [labelsLoop, ih, trimDoubleQuotes_quoted]

theorem handleVectorDesc_nil_labels (opts : List Node) (desc : Desc)
    (h : handleVectorDesc opts [] = .ok (desc, true)) :
    ∃ d0, optsLoop opts Desc.zero = .ok (d0, true) ∧ desc = { d0 with Labels := [] } := by
  unfold handleVectorDesc at h
  split at h
  · simp at h
  · simp at h
  · rename_i d0 heq
    simp only [labelsLoop, Except.ok.injEq, Prod.mk.injEq, and_true] at h
    exact ⟨d0, heq, h.symm⟩

/-- C4: when the options resolve (`handleVectorDesc` succeeds on them with no labels) and
the labels list consists of double-quoted string literals, `handleVectorDesc` returns
`ok = true` with `Labels` equal to the texts between the quotes, in the order of the list,
the other fields being those built from the options. -/
theorem handleVectorDesc_literal_labels (opts : List Node) (desc : Desc) (ts : List String)
    (hopts : handleVectorDesc opts [] = .ok (desc, true)) :
    handleVectorDesc opts (ts.map fun t => .BasicLit .STRING (dquote ++ t ++ dquote)) =
      .ok ({ desc with Labels := ts }, true) := by
  obtain ⟨d0, h0, rfl⟩ := handleVectorDesc_nil_labels opts desc hopts
  simp [handleVectorDesc, h0, labelsLoop_literals]

theorem handleVectorDesc_literal_labels_witness :
    handleVectorDesc
        [.KeyValueExpr (.Ident "Name" none) (.BasicLit .STRING (dquote ++ "latency" ++ dquote))]
        [.BasicLit .STRING (dquote ++ "a" ++ dquote), .BasicLit .STRING (dquote ++ "b" ++ dquote)] =
      .ok ({ Name := "latency", Namespace := "", Subsystem := "", Help := "",
             Labels := ["a", "b"], Typ := "" }, true) :=
  handleVectorDesc_literal_labels
    [.KeyValueExpr (.Ident "Name" none) (.BasicLit .STRING (dquote ++ "latency" ++ dquote))]
    { Name := "latency", Namespace := "", Subsystem := "", Help := "", Labels := [], Typ := "" }
    ["a", "b"] rfl

/-- C5: an option whose key is outside `Name`, `Namespace`, `Subsystem`, `Help` is not
skipped: the switch leaves `ok` unset, so the build returns `false` at that element. With
`Buckets: prometheus.DefBuckets` added to `Name: "x", Help: "h"` the result changes from
`ok = true` to `ok = false` and the closure emits no Desc for the call. -/
theorem unrecognized_key_fails_build :
    handleVectorDesc
        [.KeyValueExpr (.Ident "Name" none) (.BasicLit .STRING (dquote ++ "x" ++ dquote)),
         .KeyValueExpr (.Ident "Help" none) (.BasicLit .STRING (dquote ++ "h" ++ dquote))] [] =
      .ok ({ Name := "x", Namespace := "", Subsystem := "", Help := "h", Labels := [],
             Typ := "" }, true) ∧
    handleVectorDesc
        [.KeyValueExpr (.Ident "Name" none) (.BasicLit .STRING (dquote ++ "x" ++ dquote)),
         .KeyValueExpr (.Ident "Help" none) (.BasicLit .STRING (dquote ++ "h" ++ dquote)),
         .KeyValueExpr (.Ident "Buckets" none)
           (.SelectorExpr (.Ident "prometheus" none) "DefBuckets")] [] =
      .ok ({ Name := "x", Namespace := "", Subsystem := "", Help := "h", Labels := [],
             Typ := "" }, false) ∧
    visit (.CallExpr (.SelectorExpr (.Ident "prometheus" none) "NewHistogram")
        [.CompositeLit (some (.SelectorExpr (.Ident "prometheus" none) "HistogramOpts"))
          [.KeyValueExpr (.Ident "Name" none) (.BasicLit .STRING (dquote ++ "x" ++ dquote)),
           .KeyValueExpr (.Ident "Help" none) (.BasicLit .STRING (dquote ++ "h" ++ dquote)),
           .KeyValueExpr (.Ident "Buckets" none)
             (.SelectorExpr (.Ident "prometheus" none) "DefBuckets")]]) = .ok none :=
  ⟨rfl, rfl, rfl⟩

/-- C7: for an identifier whose declaration is a value specification with exactly one
initializer, a double-quoted string literal, `parseKV` returns `ok = true` and the text
between the quotes. -/
theorem parseKV_ident_of_string_const (name : String) (names : List Node) (typ : Option Node)
    (t : String) :
    parseKV (.Ident name (some (.ValueSpec names typ
      [.BasicLit .STRING (dquote ++ t ++ dquote)]))) = .ok (t, true) := by
  simp [parseKV, trimDoubleQuotes_quoted]

/-- C8, the claim refuted: the integer literal `42` and an identifier declared by
`const X = 5` both resolve with `ok = true`. -/
theorem parseKV_accepts_non_string_literal :
    parseKV (.BasicLit .INT "42") = .ok ("42", true) ∧
    parseKV (.Ident "X" (some (.ValueSpec [.Ident "X" none] none [.BasicLit .INT "5"]))) =
      .ok ("5", true) :=
  ⟨rfl, rfl⟩

/-- C8, amended: for an expression that is not an identifier bound as a later name of a
declaration of several names, `parseKV` returns `ok = true` exactly when the expression is
a basic literal, of any kind, or an identifier bound to a constant or variable that is
initialized with a basic literal, of any kind. -/
theorem parseKV_ok_iff (e : Node)
    (hfirst : ∀ name names typ values, e = .Ident name (some (.ValueSpec names typ values)) →
      ∃ o more, names = .Ident name o :: more) :
    (∃ s, parseKV e = .ok (s, true)) ↔
      ((∃ kind value, e = .BasicLit kind value) ∨
        (∃ name o more typ kind value rest,
          e = .Ident name (some (.ValueSpec (.Ident name o :: more) typ
            (.BasicLit kind value :: rest))))) := by
  constructor
  · rintro ⟨s, h⟩
    unfold parseKV at h
    split at h
    · exact Or.inl ⟨_, _, rfl⟩
    · split at h
      · simp at h
      · split at h
        · simp at h
        · rename_i name obj names typ values kind value rest
          obtain ⟨o, more, rfl⟩ := hfirst name names typ _ rfl
          exact Or.inr ⟨_, _, _, _, _, _, _, rfl⟩
        · simp at h
      · simp at h
      · simp at h
    · simp at h
  · rintro (⟨kind, value, rfl⟩ | ⟨name, o, more, typ, kind, value, rest, rfl⟩)
    · exact ⟨_, rfl⟩
    · exact ⟨_, rfl⟩

theorem parseKV_ok_iff_witness :
    ∃ s, parseKV (.Ident "X" (some (.ValueSpec [.Ident "X" none] none [.BasicLit .INT "5"]))) =
      .ok (s, true) :=
  (parseKV_ok_iff (.Ident "X" (some (.ValueSpec [.Ident "X" none] none [.BasicLit .INT "5"])))
    (fun name names typ values h => by
      simp only [Node.Ident.injEq, Option.some.injEq, Node.ValueSpec.injEq] at h
      obtain ⟨rfl, rfl, -, -⟩ := h
      exact ⟨none, [], rfl⟩)).mpr
    (Or.inr ⟨"X", none, [], none, .INT, "5", [], rfl⟩)

/-- C9: `parseKV` fails at run time on an identifier with no declaration in the file (nil
`Obj`), on one declared by a value specification without initializer (`var x string`), and
on one whose first initializer is not a basic literal (`const x = a + b`). -/
theorem parseKV_panics :
    parseKV (.Ident "ExternalName" none) = .error .nilDereference ∧
    parseKV (.Ident "x" (some (.ValueSpec [.Ident "x" none] (some (.Ident "string" none)) []))) =
      .error .indexOutOfRange ∧
    parseKV (.Ident "x" (some (.ValueSpec [.Ident "x" none] none
      [.Other [.Ident "a" none, .Ident "b" none]]))) = .error .typeAssertion :=
  ⟨rfl, rfl, rfl⟩

/-! ## Claims on calls that yield no Desc and on the arity of plain constructors -/

theorem visitAll_skip (xs ys : List Node) (c : Node) (descs : List Desc)
    (hc : visit c = .ok none) :
    visitAll (xs ++ c :: ys) descs = visitAll (xs ++ ys) descs := by
  rw [visitAll_append, visitAll_append]
  cases visitAll xs descs with
  | error p => rfl
  | ok descs1 => simp [visitAll, hc]

theorem optsLoop_append (pre rest : List Node) (desc : Desc) :
    optsLoop (pre ++ rest) desc =
      match optsLoop pre desc with
      | .error p => .error p
      | .ok (desc1, true) => optsLoop rest desc1
      | .ok (desc1, false) => .ok (desc1, false) := by
  induction pre generalizing desc with
  | nil => simp [optsLoop]
  | cons x xs ih =>
    simp only [List.cons_append, optsLoop]
    cases optStep desc x with
    | error p => rfl
    | ok r =>
      obtain ⟨d1, b⟩ := r
      cases b with
      | true => simp [ih]
      | false => simp

theorem optStep_parameter (desc : Desc) (key v : String) (kobj : Option Node)
    (names : List Node) (ftyp : Option Node)
    (hk : key ∈ ["Name", "Namespace", "Subsystem", "Help"]) :
    ∃ d, optStep desc (.KeyValueExpr (.Ident key kobj) (.Ident v (some (.Field names ftyp)))) =
      .ok (d, false) := by
  simp only [List.mem_cons, List.mem_singleton, List.not_mem_nil, or_false] at hk
  rcases hk with rfl | rfl | rfl | rfl <;> exact ⟨_, rfl⟩

theorem handleVectorDesc_parameter (pre post labels : List Node) (key v : String)
    (kobj : Option Node) (names : List Node) (ftyp : Option Node)
    (hk : key ∈ ["Name", "Namespace", "Subsystem", "Help"])
    (hpre : ∀ p, handleVectorDesc pre [] ≠ .error p) :
    ∃ d, handleVectorDesc
      (pre ++ .KeyValueExpr (.Ident key kobj) (.Ident v (some (.Field names ftyp))) :: post)
      labels = .ok (d, false) := by
  unfold handleVectorDesc
  rw [optsLoop_append]
  cases h : optsLoop pre Desc.zero with
  | error p =>
    exfalso
    apply hpre p
    simp [handleVectorDesc, h]
  | ok r =>
    obtain ⟨d1, b⟩ := r
    cases b with
    | false => exact ⟨d1, rfl⟩
    | true =>
      obtain ⟨d, hd⟩ := optStep_parameter d1 key v kobj names ftyp hk
      refine ⟨d, ?_⟩
      simp [optsLoop, hd]

/-- Dropping a call whose option is a function parameter. Take a call `module.sel(...)` of a
recognized constructor (first argument a composite literal and, for a vector constructor,
the second one too) one of whose options has a recognized key and, as value, an identifier
declared as a function parameter, the options before it raising no run-time failure. The
closure emits no Desc at that call, and the result for any file containing the call is what
visiting all the other nodes of the file, in the same order, produces. -/
theorem parameter_option_drops_call (call : Node) (module sel key v : String)
    (mobj kobj typ ftyp : Option Node) (names pre post rest : List Node)
    (hcall : call = .CallExpr (.SelectorExpr (.Ident module mobj) sel)
      (.CompositeLit typ
        (pre ++ .KeyValueExpr (.Ident key kobj) (.Ident v (some (.Field names ftyp))) :: post)
        :: rest))
    (hm : module = "prometheus" ∨ module = "promauto")
    (hs : sel ∈ plainNames ∨
      (sel ∈ vecNames ∧ ∃ ltyp labels more, rest = .CompositeLit ltyp labels :: more))
    (hk : key ∈ ["Name", "Namespace", "Subsystem", "Help"])
    (hpre : ∀ p, handleVectorDesc pre [] ≠ .error p) :
    visit call = .ok none ∧
      ∀ (file : Node) (xs ys : List Node), preorder file = xs ++ call :: ys →
        Inspect file [] = visitAll (xs ++ ys) [] := by
  have hv : visit call = .ok none := by
    subst hcall
    rcases hs with hs | ⟨hs, ltyp, labels, more, rfl⟩
    · obtain ⟨d, hd⟩ := handleVectorDesc_parameter pre post [] key v kobj names ftyp hk hpre
      simp [visit, hm, hs, handleDesc, hd, emit]
    · obtain ⟨d, hd⟩ :=
        handleVectorDesc_parameter pre post labels key v kobj names ftyp hk hpre
      have hnp : sel ∉ plainNames := by
        simp only [plainNames, vecNames, List.mem_cons, List.mem_singleton, List.not_mem_nil,
          or_false] at hs ⊢
        rcases hs with rfl | rfl | rfl | rfl <;> decide
      simp [visit, hm, hs, hnp, hd, emit]
  refine ⟨hv, fun file xs ys hfile => ?_⟩
  rw [Inspect_eq_visitAll, hfile, visitAll_skip xs ys call [] hv]

theorem parameter_option_drops_call_witness :
    visit (.CallExpr (.SelectorExpr (.Ident "prometheus" none) "NewGauge")
        [.CompositeLit (some (.SelectorExpr (.Ident "prometheus" none) "GaugeOpts"))
          [.KeyValueExpr (.Ident "Namespace" none) (.BasicLit .STRING (dquote ++ "app" ++ dquote)),
           .KeyValueExpr (.Ident "Name" none)
             (.Ident "name" (some (.Field [.Ident "name" none] (some (.Ident "string" none))))),
           .KeyValueExpr (.Ident "Help" none) (.BasicLit .STRING (dquote ++ "h" ++ dquote))]]) =
      .ok none ∧
    ∀ (file : Node) (xs ys : List Node),
      preorder file = xs ++
        .CallExpr (.SelectorExpr (.Ident "prometheus" none) "NewGauge")
          [.CompositeLit (some (.SelectorExpr (.Ident "prometheus" none) "GaugeOpts"))
            [.KeyValueExpr (.Ident "Namespace" none)
               (.BasicLit .STRING (dquote ++ "app" ++ dquote)),
             .KeyValueExpr (.Ident "Name" none)
               (.Ident "name" (some (.Field [.Ident "name" none] (some (.Ident "string" none))))),
             .KeyValueExpr (.Ident "Help" none) (.BasicLit .STRING (dquote ++ "h" ++ dquote))]]
          :: ys →
        Inspect file [] = visitAll (xs ++ ys) [] :=
  parameter_option_drops_call _ "prometheus" "NewGauge" "Name" "name" none none
    (some (.SelectorExpr (.Ident "prometheus" none) "GaugeOpts")) (some (.Ident "string" none))
    [.Ident "name" none]
    [.KeyValueExpr (.Ident "Namespace" none) (.BasicLit .STRING (dquote ++ "app" ++ dquote))]
    [.KeyValueExpr (.Ident "Help" none) (.BasicLit .STRING (dquote ++ "h" ++ dquote))]
    [] rfl (Or.inl rfl) (Or.inl (by decide)) (by decide)
    (fun p hp => by simp [handleVectorDesc, optsLoop, optStep, parseKV, labelsLoop] at hp)

/-- C6: in `prometheus.NewGauge(prometheus.GaugeOpts{Name: metricName, Help: help})`, with
`help` a function parameter and `metricName` declared in another file of the package, the
call is not dropped silently: `parseKV` dereferences the nil `Obj` of `metricName`, the
closure fails at run time, and the traversal of a file holding this call and a second,
well-formed one fails too, although the file without the first call yields the Desc of the
second. -/
theorem parameter_option_after_unresolved_panics :
    visit (.CallExpr (.SelectorExpr (.Ident "prometheus" none) "NewGauge")
        [.CompositeLit (some (.SelectorExpr (.Ident "prometheus" none) "GaugeOpts"))
          [.KeyValueExpr (.Ident "Name" none) (.Ident "metricName" none),
           .KeyValueExpr (.Ident "Help" none)
             (.Ident "help" (some (.Field [.Ident "help" none] (some (.Ident "string" none)))))]]) =
      .error .nilDereference ∧
    Inspect (.Other
        [.CallExpr (.SelectorExpr (.Ident "prometheus" none) "NewGauge")
          [.CompositeLit (some (.SelectorExpr (.Ident "prometheus" none) "GaugeOpts"))
            [.KeyValueExpr (.Ident "Name" none) (.Ident "metricName" none),
             .KeyValueExpr (.Ident "Help" none)
               (.Ident "help" (some (.Field [.Ident "help" none] (some (.Ident "string" none)))))]],
         .CallExpr (.SelectorExpr (.Ident "prometheus" none) "NewCounter")
          [.CompositeLit (some (.SelectorExpr (.Ident "prometheus" none) "CounterOpts"))
            [.KeyValueExpr (.Ident "Name" none) (.BasicLit .STRING (dquote ++ "hits" ++ dquote)),
             .KeyValueExpr (.Ident "Help" none) (.BasicLit .STRING (dquote ++ "h" ++ dquote))]]])
        [] = .error .nilDereference ∧
    Inspect (.Other
        [.CallExpr (.SelectorExpr (.Ident "prometheus" none) "NewCounter")
          [.CompositeLit (some (.SelectorExpr (.Ident "prometheus" none) "CounterOpts"))
            [.KeyValueExpr (.Ident "Name" none) (.BasicLit .STRING (dquote ++ "hits" ++ dquote)),
             .KeyValueExpr (.Ident "Help" none) (.BasicLit .STRING (dquote ++ "h" ++ dquote))]]])
        [] =
      .ok [{ Name := "hits", Namespace := "", Subsystem := "", Help := "h", Labels := [],
             Typ := "counter" }] :=
  ⟨rfl, rfl, rfl⟩

/-- C10, the claim refuted: `prometheus.NewGaugeFunc(prometheus.GaugeOpts{...}, f)`, a call
with two arguments, yields a Desc. -/
theorem plain_constructor_two_arguments :
    visit (.CallExpr (.SelectorExpr (.Ident "prometheus" none) "NewGaugeFunc")
        [.CompositeLit (some (.SelectorExpr (.Ident "prometheus" none) "GaugeOpts"))
          [.KeyValueExpr (.Ident "Name" none) (.BasicLit .STRING (dquote ++ "x" ++ dquote)),
           .KeyValueExpr (.Ident "Help" none) (.BasicLit .STRING (dquote ++ "h" ++ dquote))],
         .Ident "f" none]) =
      .ok (some { Name := "x", Namespace := "", Subsystem := "", Help := "h", Labels := [],
                  Typ := "gauge_func" }) :=
  rfl

/-- C10, amended: a call to a non-vector constructor under a recognized alias matches
exactly when it has at least one argument and its first argument is a composite literal,
whose elements then go to `handleDesc` whatever arguments follow; in every other case (no
argument, first argument not a composite literal) it yields no Desc. -/
theorem plain_constructor_match (module sel : String) (mobj : Option Node)
    (hm : module = "prometheus" ∨ module = "promauto") (hs : sel ∈ plainNames) :
    (∀ (typ : Option Node) (elts rest : List Node),
      visit (.CallExpr (.SelectorExpr (.Ident module mobj) sel) (.CompositeLit typ elts :: rest)) =
        emit sel (handleDesc elts)) ∧
    (∀ args : List Node, (∀ typ elts rest, args ≠ .CompositeLit typ elts :: rest) →
      visit (.CallExpr (.SelectorExpr (.Ident module mobj) sel) args) = .ok none) := by
  constructor
  · intro typ elts rest
    simp [visit, hm, hs]
  · intro args hargs
    unfold visit
    simp only [hm, not_true_eq_false, if_false, hs, if_true]
    split
    · rfl
    · rename_i typ elts rest
      exact absurd rfl (hargs typ elts rest)
    · rfl

theorem plain_constructor_match_witness :
    visit (.CallExpr (.SelectorExpr (.Ident "promauto" none) "NewSummary")
      [.Ident "opts" none]) = .ok none :=
  (plain_constructor_match "promauto" "NewSummary" none (Or.inr rfl) (by decide)).2
    [.Ident "opts" none] (fun typ elts rest h => by simp at h)

/-! ## Claims on run-time failures of the matcher and the builder -/

/-- C11: `prometheus.NewGaugeVec(prometheus.GaugeOpts{Name: "x", Help: "h"})`, a vector
constructor called with one argument, a composite literal, is not treated as non-matching:
the closure evaluates `call.Args[1]` and fails with an index out of range, and so does the
traversal of a file holding the call. -/
theorem vector_constructor_one_argument_panics :
    visit (.CallExpr (.SelectorExpr (.Ident "prometheus" none) "NewGaugeVec")
        [.CompositeLit (some (.SelectorExpr (.Ident "prometheus" none) "GaugeOpts"))
          [.KeyValueExpr (.Ident "Name" none) (.BasicLit .STRING (dquote ++ "x" ++ dquote)),
           .KeyValueExpr (.Ident "Help" none) (.BasicLit .STRING (dquote ++ "h" ++ dquote))]]) =
      .error .indexOutOfRange ∧
    Inspect (.Other
        [.CallExpr (.SelectorExpr (.Ident "prometheus" none) "NewGaugeVec")
          [.CompositeLit (some (.SelectorExpr (.Ident "prometheus" none) "GaugeOpts"))
            [.KeyValueExpr (.Ident "Name" none) (.BasicLit .STRING (dquote ++ "x" ++ dquote)),
             .KeyValueExpr (.Ident "Help" none)
               (.BasicLit .STRING (dquote ++ "h" ++ dquote))]]]) [] =
      .error .indexOutOfRange :=
  ⟨rfl, rfl⟩

/-- C12: with the labels list `[]string{labelMethod, "code"}`, whose first element is an
identifier, `handleVectorDesc` does not report `ok = false`: the assertion
`elt.(*ast.BasicLit)` fails at run time, and the closure fails on the call
`prometheus.NewCounterVec(prometheus.CounterOpts{Name: "x", Help: "h"}, ...)`. -/
theorem non_literal_label_panics :
    handleVectorDesc
        [.KeyValueExpr (.Ident "Name" none) (.BasicLit .STRING (dquote ++ "x" ++ dquote)),
         .KeyValueExpr (.Ident "Help" none) (.BasicLit .STRING (dquote ++ "h" ++ dquote))]
        [.Ident "labelMethod"
           (some (.ValueSpec [.Ident "labelMethod" none] none
             [.BasicLit .STRING (dquote ++ "method" ++ dquote)])),
         .BasicLit .STRING (dquote ++ "code" ++ dquote)] =
      .error .typeAssertion ∧
    visit (.CallExpr (.SelectorExpr (.Ident "prometheus" none) "NewCounterVec")
        [.CompositeLit (some (.SelectorExpr (.Ident "prometheus" none) "CounterOpts"))
          [.KeyValueExpr (.Ident "Name" none) (.BasicLit .STRING (dquote ++ "x" ++ dquote)),
           .KeyValueExpr (.Ident "Help" none) (.BasicLit .STRING (dquote ++ "h" ++ dquote))],
         .CompositeLit (some (.Other [.Ident "string" none]))
          [.Ident "labelMethod"
             (some (.ValueSpec [.Ident "labelMethod" none] none
               [.BasicLit .STRING (dquote ++ "method" ++ dquote)])),
           .BasicLit .STRING (dquote ++ "code" ++ dquote)]]) =
      .error .typeAssertion :=
  ⟨rfl, rfl⟩

/-- C20: on the positional options `GaugeOpts{"ns", "sub", "name", "help"}`, whose elements
are not key-value pairs, and on an option whose key is not an identifier,
`handleVectorDesc` does not return: the assertions `elt.(*ast.KeyValueExpr)` and
`kv.Key.(*ast.Ident)` fail at run time. -/
theorem positional_options_panic :
    handleVectorDesc
        [.BasicLit .STRING (dquote ++ "ns" ++ dquote),
         .BasicLit .STRING (dquote ++ "sub" ++ dquote),
         .BasicLit .STRING (dquote ++ "name" ++ dquote),
         .BasicLit .STRING (dquote ++ "help" ++ dquote)] [] = .error .typeAssertion ∧
    handleVectorDesc
        [.KeyValueExpr (.BasicLit .STRING (dquote ++ "Name" ++ dquote))
          (.BasicLit .STRING (dquote ++ "x" ++ dquote))] [] = .error .typeAssertion ∧
    visit (.CallExpr (.SelectorExpr (.Ident "prometheus" none) "NewGauge")
        [.CompositeLit (some (.SelectorExpr (.Ident "prometheus" none) "GaugeOpts"))
          [.BasicLit .STRING (dquote ++ "ns" ++ dquote),
           .BasicLit .STRING (dquote ++ "sub" ++ dquote),
           .BasicLit .STRING (dquote ++ "name" ++ dquote),
           .BasicLit .STRING (dquote ++ "help" ++ dquote)]]) = .error .typeAssertion :=
  ⟨rfl, rfl, rfl⟩

/-! ## Claims on the fields of an emitted Desc -/

theorem optStep_ok_true (d0 d1 : Desc) (x : Node) (h : optStep d0 x = .ok (d1, true)) :
    ∃ key o v s, x = .KeyValueExpr (.Ident key o) v ∧ parseKV v = .ok (s, true) ∧
      ((key = "Name" ∧ d1 = { d0 with Name := s }) ∨
       (key = "Subsystem" ∧ d1 = { d0 with Subsystem := s }) ∨
       (key = "Namespace" ∧ d1 = { d0 with Namespace := s }) ∨
       (key = "Help" ∧ d1 = { d0 with Help := s })) := by
  unfold optStep at h
  split at h
  · rename_i key o v
    refine ⟨key, o, v, ?_⟩
    cases hp : parseKV v with
    | error p => split_ifs at h <;> simp [hp] at h
    | ok r =>
      obtain ⟨s, b⟩ := r
      refine ⟨s, rfl, ?_⟩
      split_ifs at h with h1 h2 h3 h4
      · simp only [hp, Except.ok.injEq, Prod.mk.injEq] at h
        obtain ⟨hd, rfl⟩ := h
        exact ⟨rfl, Or.inl ⟨h1, hd.symm⟩⟩
      · simp only [hp, Except.ok.injEq, Prod.mk.injEq] at h
        obtain ⟨hd, rfl⟩ := h
        exact ⟨rfl, Or.inr (Or.inl ⟨h2, hd.symm⟩)⟩
      · simp only [hp, Except.ok.injEq, Prod.mk.injEq] at h
        obtain ⟨hd, rfl⟩ := h
        exact ⟨rfl, Or.inr (Or.inr (Or.inl ⟨h3, hd.symm⟩))⟩
      · simp only [hp, Except.ok.injEq, Prod.mk.injEq] at h
        obtain ⟨hd, rfl⟩ := h
        exact ⟨rfl, Or.inr (Or.inr (Or.inr ⟨h4, hd.symm⟩))⟩
      · simp at h
  · simp at h

theorem optsLoop_absent (opts : List Node) (d0 d : Desc)
    (h : optsLoop opts d0 = .ok (d, true)) :
    ((∀ o v, .KeyValueExpr (.Ident "Name" o) v ∉ opts) → d.Name = d0.Name) ∧
    ((∀ o v, .KeyValueExpr (.Ident "Help" o) v ∉ opts) → d.Help = d0.Help) := by
  induction opts generalizing d0 with
  | nil =>
    simp only [optsLoop, Except.ok.injEq, Prod.mk.injEq, and_true] at h
    subst h
    exact ⟨fun _ => rfl, fun _ => rfl⟩
  | cons x xs ih =>
    rw [optsLoop] at h
    cases hx : optStep d0 x with
    | error p => simp [hx] at h
    | ok r =>
      obtain ⟨d1, b⟩ := r
      cases b with
      | false => simp [hx] at h
      | true =>
        simp only [hx, if_true] at h
        obtain ⟨hn, hh⟩ := ih d1 h
        obtain ⟨key, o, v, s, rfl, hp, hk⟩ := optStep_ok_true d0 d1 _ hx
        constructor
        · intro hno
          rw [hn (fun o2 v2 hm => hno o2 v2 (List.mem_cons_of_mem _ hm))]
          rcases hk with ⟨rfl, rfl⟩ | ⟨-, rfl⟩ | ⟨-, rfl⟩ | ⟨-, rfl⟩
          · exact absurd (List.mem_cons_self _ _) (hno o v)
          · rfl
          · rfl
          · rfl
        · intro hno
          rw [hh (fun o2 v2 hm => hno o2 v2 (List.mem_cons_of_mem _ hm))]
          rcases hk with ⟨-, rfl⟩ | ⟨-, rfl⟩ | ⟨-, rfl⟩ | ⟨rfl, rfl⟩
          · rfl
          · rfl
          · rfl
          · exact absurd (List.mem_cons_self _ _) (hno o v)

theorem optsLoop_split (pre post : List Node) (x : Node) (d0 d : Desc)
    (h : optsLoop (pre ++ x :: post) d0 = .ok (d, true)) :
    ∃ d1 d2, optsLoop pre d0 = .ok (d1, true) ∧ optStep d1 x = .ok (d2, true) ∧
      optsLoop post d2 = .ok (d, true) := by
  rw [optsLoop_append] at h
  cases hpre : optsLoop pre d0 with
  | error p => simp [hpre] at h
  | ok r =>
    obtain ⟨d1, b⟩ := r
    cases b with
    | false => simp [hpre] at h
    | true =>
      simp only [hpre, optsLoop] at h
      cases hx : optStep d1 x with
      | error p => simp [hx] at h
      | ok r2 =>
        obtain ⟨d2, b2⟩ := r2
        cases b2 with
        | false => simp [hx] at h
        | true =>
          simp only [hx, if_true] at h
          exact ⟨d1, d2, rfl, hx, h⟩

theorem optsLoop_last_name (pre post : List Node) (o : Option Node) (v : Node) (d0 d : Desc)
    (h : optsLoop (pre ++ .KeyValueExpr (.Ident "Name" o) v :: post) d0 = .ok (d, true))
    (hpost : ∀ o2 v2, .KeyValueExpr (.Ident "Name" o2) v2 ∉ post) :
    parseKV v = .ok (d.Name, true) := by
  obtain ⟨d1, d2, -, hx, hrest⟩ := optsLoop_split pre post _ d0 d h
  obtain ⟨key, o3, v3, s, heq, hp, hk⟩ := optStep_ok_true d1 d2 _ hx
  simp only [Node.KeyValueExpr.injEq, Node.Ident.injEq] at heq
  obtain ⟨⟨rfl, -⟩, rfl⟩ := heq
  rw [(optsLoop_absent post d2 d hrest).1 hpost]
  rcases hk with ⟨-, rfl⟩ | ⟨hc, -⟩ | ⟨hc, -⟩ | ⟨hc, -⟩
  · exact hp
  · exact absurd hc (by decide)
  · exact absurd hc (by decide)
  · exact absurd hc (by decide)

theorem optsLoop_last_help (pre post : List Node) (o : Option Node) (v : Node) (d0 d : Desc)
    (h : optsLoop (pre ++ .KeyValueExpr (.Ident "Help" o) v :: post) d0 = .ok (d, true))
    (hpost : ∀ o2 v2, .KeyValueExpr (.Ident "Help" o2) v2 ∉ post) :
    parseKV v = .ok (d.Help, true) := by
  obtain ⟨d1, d2, -, hx, hrest⟩ := optsLoop_split pre post _ d0 d h
  obtain ⟨key, o3, v3, s, heq, hp, hk⟩ := optStep_ok_true d1 d2 _ hx
  simp only [Node.KeyValueExpr.injEq, Node.Ident.injEq] at heq
  obtain ⟨⟨rfl, -⟩, rfl⟩ := heq
  rw [(optsLoop_absent post d2 d hrest).2 hpost]
  rcases hk with ⟨hc, -⟩ | ⟨hc, -⟩ | ⟨hc, -⟩ | ⟨-, rfl⟩
  · exact absurd hc (by decide)
  · exact absurd hc (by decide)
  · exact absurd hc (by decide)
  · exact hp

theorem handleVectorDesc_loop (opts labels : List Node) (d : Desc)
    (h : handleVectorDesc opts labels = .ok (d, true)) :
    ∃ d1, optsLoop opts Desc.zero = .ok (d1, true) ∧ d.Name = d1.Name ∧ d.Help = d1.Help := by
  unfold handleVectorDesc at h
  split at h
  · simp at h
  · simp at h
  · rename_i d1 heq
    split at h
    · simp at h
    · simp only [Except.ok.injEq, Prod.mk.injEq, and_true] at h
      subst h
      exact ⟨d1, heq, rfl, rfl⟩

theorem visit_some_build (fn : Node) (args : List Node) (d : Desc)
    (h : visit (.CallExpr fn args) = .ok (some d)) :
    ∃ typ elts rest labels desc, args = .CompositeLit typ elts :: rest ∧
      handleVectorDesc elts labels = .ok (desc, true) ∧ d.Name = desc.Name ∧
      d.Help = desc.Help := by
  unfold visit at h
  split at h
  · rename_i module obj sel args1 heq
    simp only [Node.CallExpr.injEq] at heq
    obtain ⟨-, rfl⟩ := heq
    by_cases h1 : module = "prometheus" ∨ module = "promauto"
    · simp only [h1, not_true_eq_false, if_false] at h
      by_cases h2 : sel ∈ plainNames
      · simp only [h2, if_true] at h
        split at h
        · simp at h
        · rename_i typ elts rest
          obtain ⟨desc, hb, rfl⟩ := emit_some _ _ _ h
          exact ⟨typ, elts, rest, [], desc, rfl, hb, rfl, rfl⟩
        · simp at h
      · simp only [h2, if_false] at h
        by_cases h3 : sel ∈ vecNames
        · simp only [h3, if_true] at h
          split at h
          · simp at h
          · rename_i typ elts rest
            split at h
            · simp at h
            · rename_i ltyp labels more
              obtain ⟨desc, hb, rfl⟩ := emit_some _ _ _ h
              exact ⟨typ, elts, _, labels, desc, rfl, hb, rfl, rfl⟩
            · simp at h
          · simp at h
        · simp [h3] at h
    · simp [h1] at h
  · simp at h

/-- C13, the claim refuted: the calls `prometheus.NewGauge(prometheus.GaugeOpts{Help: "h"})`
and `prometheus.NewGauge(prometheus.GaugeOpts{Name: "", Help: "h"})` are both emitted with
an empty `Name`. -/
theorem emitted_with_empty_name :
    visit (.CallExpr (.SelectorExpr (.Ident "prometheus" none) "NewGauge")
        [.CompositeLit (some (.SelectorExpr (.Ident "prometheus" none) "GaugeOpts"))
          [.KeyValueExpr (.Ident "Help" none) (.BasicLit .STRING (dquote ++ "h" ++ dquote))]]) =
      .ok (some { Name := "", Namespace := "", Subsystem := "", Help := "h", Labels := [],
                  Typ := "gauge" }) ∧
    visit (.CallExpr (.SelectorExpr (.Ident "prometheus" none) "NewGauge")
        [.CompositeLit (some (.SelectorExpr (.Ident "prometheus" none) "GaugeOpts"))
          [.KeyValueExpr (.Ident "Name" none) (.BasicLit .STRING (dquote ++ "" ++ dquote)),
           .KeyValueExpr (.Ident "Help" none) (.BasicLit .STRING (dquote ++ "h" ++ dquote))]]) =
      .ok (some { Name := "", Namespace := "", Subsystem := "", Help := "h", Labels := [],
                  Typ := "gauge" }) :=
  ⟨rfl, rfl⟩

/-- C13, amended: a Desc is emitted only at a call whose first argument is an options
literal, and its `Name` is the empty string when that literal has no `Name` key and
otherwise the text `parseKV` resolved for the last `Name` option of the literal; likewise
its `Help`. So an emitted `Name` is empty only for a literal without `Name` key or whose
last `Name` option resolves to the empty text. -/
theorem emitted_name_and_help (fn : Node) (args : List Node) (d : Desc)
    (h : visit (.CallExpr fn args) = .ok (some d)) :
    ∃ typ elts rest, args = .CompositeLit typ elts :: rest ∧
      ((∀ o v, .KeyValueExpr (.Ident "Name" o) v ∉ elts) → d.Name = "") ∧
      (∀ pre o v post, elts = pre ++ .KeyValueExpr (.Ident "Name" o) v :: post →
        (∀ o2 v2, .KeyValueExpr (.Ident "Name" o2) v2 ∉ post) →
        parseKV v = .ok (d.Name, true)) ∧
      ((∀ o v, .KeyValueExpr (.Ident "Help" o) v ∉ elts) → d.Help = "") ∧
      (∀ pre o v post, elts = pre ++ .KeyValueExpr (.Ident "Help" o) v :: post →
        (∀ o2 v2, .KeyValueExpr (.Ident "Help" o2) v2 ∉ post) →
        parseKV v = .ok (d.Help, true)) := by
  obtain ⟨typ, elts, rest, labels, desc, rfl, hb, hn, hh⟩ := visit_some_build fn args d h
  obtain ⟨d1, hloop, hn1, hh1⟩ := handleVectorDesc_loop elts labels desc hb
  refine ⟨typ, elts, rest, rfl, ?_, ?_, ?_, ?_⟩
  · intro hno
    rw [hn, hn1, (optsLoop_absent elts Desc.zero d1 hloop).1 hno]
    rfl
  · intro pre o v post he hpost
    subst he
    rw [hn, hn1]
    exact optsLoop_last_name pre post o v Desc.zero d1 hloop hpost
  · intro hno
    rw [hh, hh1, (optsLoop_absent elts Desc.zero d1 hloop).2 hno]
    rfl
  · intro pre o v post he hpost
    subst he
    rw [hh, hh1]
    exact optsLoop_last_help pre post o v Desc.zero d1 hloop hpost

theorem emitted_name_and_help_witness :
    parseKV (.BasicLit .STRING (dquote ++ "x" ++ dquote)) = .ok ("x", true) ∧
    (("" : String) = "") := by
  obtain ⟨typ, elts, rest, hargs, -, hname, hhelp, -⟩ :=
    emitted_name_and_help (.SelectorExpr (.Ident "promauto" none) "NewCounter")
      [.CompositeLit none
        [.KeyValueExpr (.Ident "Name" none) (.BasicLit .STRING (dquote ++ "x" ++ dquote))]]
      { Name := "x", Namespace := "", Subsystem := "", Help := "", Labels := [],
        Typ := "counter" } rfl
  simp only [List.cons.injEq, Node.CompositeLit.injEq] at hargs
  obtain ⟨⟨-, helts⟩, -⟩ := hargs
  exact ⟨hname [] none _ [] helts.symm (fun o v hm => by simp at hm),
    hhelp (fun o v hm => by
      rw [← helts] at hm
      simp at hm)⟩

theorem optStep_unresolved (d0 : Desc) (key s : String) (o : Option Node) (v : Node)
    (hk : key ∈ ["Name", "Namespace", "Subsystem", "Help"])
    (hv : parseKV v = .ok (s, false)) :
    ∃ d1, optStep d0 (.KeyValueExpr (.Ident key o) v) = .ok (d1, false) := by
  simp only [List.mem_cons, List.mem_singleton, List.not_mem_nil, or_false] at hk
  rcases hk with rfl | rfl | rfl | rfl
  · exact ⟨{ d0 with Name := s }, by simp [optStep, hv]⟩
  · exact ⟨{ d0 with Namespace := s }, by simp [optStep, hv]⟩
  · exact ⟨{ d0 with Subsystem := s }, by simp [optStep, hv]⟩
  · exact ⟨{ d0 with Help := s }, by simp [optStep, hv]⟩

/-- An option with a recognized key whose value `parseKV` reports unresolvable makes the
build return `false`, wherever it stands, when the options before it raise no run-time
failure. -/
theorem unresolved_option_fails_build (pre post labels : List Node) (key s : String)
    (kobj : Option Node) (v : Node)
    (hk : key ∈ ["Name", "Namespace", "Subsystem", "Help"])
    (hv : parseKV v = .ok (s, false))
    (hpre : ∀ p, handleVectorDesc pre [] ≠ .error p) :
    ∃ d, handleVectorDesc (pre ++ .KeyValueExpr (.Ident key kobj) v :: post) labels =
      .ok (d, false) := by
  unfold handleVectorDesc
  rw [optsLoop_append]
  cases h : optsLoop pre Desc.zero with
  | error p =>
    exfalso
    apply hpre p
    simp [handleVectorDesc, h]
  | ok r =>
    obtain ⟨d1, b⟩ := r
    cases b with
    | false => exact ⟨d1, rfl⟩
    | true =>
      obtain ⟨d, hd⟩ := optStep_unresolved d1 key s kobj v hk hv
      exact ⟨d, by simp [optsLoop, hd]⟩

/-- C16: on the options `Name: metricName, Help: help`, with `help` a function parameter,
which `parseKV` reports unresolvable, and `metricName` declared in another file,
`handleVectorDesc` does not return `ok = false`: it fails at run time in `parseKV` on the
first option. -/
theorem unresolved_option_after_panic :
    parseKV (.Ident "help" (some (.Field [.Ident "help" none] (some (.Ident "string" none))))) =
      .ok ("", false) ∧
    handleVectorDesc
        [.KeyValueExpr (.Ident "Name" none) (.Ident "metricName" none),
         .KeyValueExpr (.Ident "Help" none)
           (.Ident "help" (some (.Field [.Ident "help" none] (some (.Ident "string" none)))))]
        [] = .error .nilDereference :=
  ⟨rfl, rfl⟩

theorem optStep_resolving (d0 : Desc) (key s : String) (o : Option Node) (v : Node)
    (hk : key ∈ ["Name", "Namespace", "Subsystem", "Help"])
    (hv : parseKV v = .ok (s, true)) :
    ∃ d1, optStep d0 (.KeyValueExpr (.Ident key o) v) = .ok (d1, true) ∧
      (key ≠ "Name" → d1.Name = d0.Name) ∧
      (key ≠ "Namespace" → d1.Namespace = d0.Namespace) ∧
      (key ≠ "Subsystem" → d1.Subsystem = d0.Subsystem) ∧
      (key ≠ "Help" → d1.Help = d0.Help) := by
  simp only [List.mem_cons, List.mem_singleton, List.not_mem_nil, or_false] at hk
  rcases hk with rfl | rfl | rfl | rfl
  · exact ⟨{ d0 with Name := s }, by simp [optStep, hv], by simp, by simp, by simp, by simp⟩
  · exact ⟨{ d0 with Namespace := s }, by simp [optStep, hv], by simp, by simp, by simp,
      by simp⟩
  · exact ⟨{ d0 with Subsystem := s }, by simp [optStep, hv], by simp, by simp, by simp,
      by simp⟩
  · exact ⟨{ d0 with Help := s }, by simp [optStep, hv], by simp, by simp, by simp, by simp⟩

theorem optsLoop_resolving (opts : List Node) (d0 : Desc)
    (hopts : ∀ e ∈ opts, ∃ key o v s, e = .KeyValueExpr (.Ident key o) v ∧
      key ∈ ["Name", "Namespace", "Subsystem", "Help"] ∧ parseKV v = .ok (s, true)) :
    ∃ d, optsLoop opts d0 = .ok (d, true) ∧
      ((∀ o v, .KeyValueExpr (.Ident "Name" o) v ∉ opts) → d.Name = d0.Name) ∧
      ((∀ o v, .KeyValueExpr (.Ident "Namespace" o) v ∉ opts) →
        d.Namespace = d0.Namespace) ∧
      ((∀ o v, .KeyValueExpr (.Ident "Subsystem" o) v ∉ opts) →
        d.Subsystem = d0.Subsystem) ∧
      ((∀ o v, .KeyValueExpr (.Ident "Help" o) v ∉ opts) → d.Help = d0.Help) := by
  induction opts generalizing d0 with
  | nil => exact ⟨d0, rfl, fun _ => rfl, fun _ => rfl, fun _ => rfl, fun _ => rfl⟩
  | cons x xs ih =>
    obtain ⟨key, o, v, s, rfl, hk, hv⟩ := hopts x (List.mem_cons_self _ _)
    obtain ⟨d1, h1, a1, a2, a3, a4⟩ := optStep_resolving d0 key s o v hk hv
    obtain ⟨d, h2, b1, b2, b3, b4⟩ := ih d1 (fun e he => hopts e (List.mem_cons_of_mem _ he))
    refine ⟨d, by simp [optsLoop, h1, h2], ?_, ?_, ?_, ?_⟩
    · intro hno
      rw [b1 (fun o2 v2 hm => hno o2 v2 (List.mem_cons_of_mem _ hm)),
        a1 (fun hkey => hno o v (by rw [hkey]; exact List.mem_cons_self _ _))]
    · intro hno
      rw [b2 (fun o2 v2 hm => hno o2 v2 (List.mem_cons_of_mem _ hm)),
        a2 (fun hkey => hno o v (by rw [hkey]; exact List.mem_cons_self _ _))]
    · intro hno
      rw [b3 (fun o2 v2 hm => hno o2 v2 (List.mem_cons_of_mem _ hm)),
        a3 (fun hkey => hno o v (by rw [hkey]; exact List.mem_cons_self _ _))]
    · intro hno
      rw [b4 (fun o2 v2 hm => hno o2 v2 (List.mem_cons_of_mem _ hm)),
        a4 (fun hkey => hno o v (by rw [hkey]; exact List.mem_cons_self _ _))]

theorem labelsLoop_basic (labels : List Node) (acc : List String)
    (h : ∀ l ∈ labels, ∃ kind value, l = .BasicLit kind value) :
    ∃ names, labelsLoop labels acc = .ok names := by
  induction labels generalizing acc with
  | nil => exact ⟨acc, rfl⟩
  | cons x xs ih =>
    obtain ⟨kind, value, rfl⟩ := h _ (List.mem_cons_self _ _)
    obtain ⟨names, hn⟩ := ih (acc ++ [trimDoubleQuotes value])
      (fun l hl => h l (List.mem_cons_of_mem _ hl))
    exact ⟨names, by simp [labelsLoop, hn]⟩

/-- C18, the claim refuted: the options literal `{Help: help}`, with `help` a function
parameter, has no `Name` key and `handleDesc` returns `ok = false` on it. -/
theorem no_name_key_build_can_fail :
    handleDesc
        [.KeyValueExpr (.Ident "Help" none)
           (.Ident "help" (some (.Field [.Ident "help" none] (some (.Ident "string" none)))))] =
      .ok ({ Name := "", Namespace := "", Subsystem := "", Help := "", Labels := [],
             Typ := "" }, false) :=
  rfl

theorem vecNames_not_plain (sel : String) (hs : sel ∈ vecNames) : sel ∉ plainNames := by
  simp only [plainNames, vecNames, List.mem_cons, List.mem_singleton, List.not_mem_nil,
    or_false] at hs ⊢
  rcases hs with rfl | rfl | rfl | rfl <;> decide

/-- C18, amended: presence of `Name` and `Help` is not enforced. For an options literal
whose elements all have a recognized key and a value `parseKV` resolves, and labels that
are basic literals, `handleVectorDesc` and `handleDesc` return `ok = true` with every field
whose key is absent equal to the empty string, `Name` included, and the closure emits that
Desc both at a call of a non-vector constructor and at a call of a vector constructor. -/
theorem absent_option_gives_empty_field (opts labels : List Node)
    (hopts : ∀ e ∈ opts, ∃ key o v s, e = .KeyValueExpr (.Ident key o) v ∧
      key ∈ ["Name", "Namespace", "Subsystem", "Help"] ∧ parseKV v = .ok (s, true))
    (hlabels : ∀ l ∈ labels, ∃ kind value, l = .BasicLit kind value) :
    ∃ d, handleVectorDesc opts labels = .ok (d, true) ∧
      handleDesc opts = .ok ({ d with Labels := [] }, true) ∧
      ((∀ o v, .KeyValueExpr (.Ident "Name" o) v ∉ opts) → d.Name = "") ∧
      ((∀ o v, .KeyValueExpr (.Ident "Namespace" o) v ∉ opts) → d.Namespace = "") ∧
      ((∀ o v, .KeyValueExpr (.Ident "Subsystem" o) v ∉ opts) → d.Subsystem = "") ∧
      ((∀ o v, .KeyValueExpr (.Ident "Help" o) v ∉ opts) → d.Help = "") ∧
      (∀ (module sel : String) (mobj typ : Option Node) (rest : List Node),
        (module = "prometheus" ∨ module = "promauto") → sel ∈ plainNames →
        visit (.CallExpr (.SelectorExpr (.Ident module mobj) sel)
          (.CompositeLit typ opts :: rest)) =
          .ok (some { d with Labels := [], Typ := parseMetricType sel })) ∧
      (∀ (module sel : String) (mobj typ ltyp : Option Node) (rest : List Node),
        (module = "prometheus" ∨ module = "promauto") → sel ∈ vecNames →
        visit (.CallExpr (.SelectorExpr (.Ident module mobj) sel)
          (.CompositeLit typ opts :: .CompositeLit ltyp labels :: rest)) =
          .ok (some { d with Typ := parseMetricType sel })) := by
  obtain ⟨d, hd, b1, b2, b3, b4⟩ := optsLoop_resolving opts Desc.zero hopts
  obtain ⟨names, hn⟩ := labelsLoop_basic labels [] hlabels
  have hb : handleVectorDesc opts labels = .ok ({ d with Labels := names }, true) := by
    simp [handleVectorDesc, hd, hn]
  have hp : handleDesc opts = .ok ({ d with Labels := [] }, true) := by
    simp [handleDesc, handleVectorDesc, hd, labelsLoop]
  refine ⟨{ d with Labels := names }, hb, hp, b1, b2, b3, b4, ?_, ?_⟩
  · intro module sel mobj typ rest hm hs
    simp [visit, hm, hs, hp, emit]
  · intro module sel mobj typ ltyp rest hm hs
    simp [visit, hm, hs, vecNames_not_plain sel hs, hb, emit]

theorem absent_option_gives_empty_field_witness :
    ∃ d, handleVectorDesc
        [.KeyValueExpr (.Ident "Help" none) (.BasicLit .STRING (dquote ++ "h" ++ dquote))]
        [.BasicLit .STRING (dquote ++ "a" ++ dquote)] = .ok (d, true) ∧ d.Name = "" ∧
      visit (.CallExpr (.SelectorExpr (.Ident "prometheus" none) "NewGaugeVec")
        [.CompositeLit none
          [.KeyValueExpr (.Ident "Help" none) (.BasicLit .STRING (dquote ++ "h" ++ dquote))],
         .CompositeLit none [.BasicLit .STRING (dquote ++ "a" ++ dquote)]]) =
        .ok (some { d with Typ := parseMetricType "NewGaugeVec" }) :=
  let ⟨d, hd, _, hname, _, _, _, _, hvec⟩ := absent_option_gives_empty_field
    [.KeyValueExpr (.Ident "Help" none) (.BasicLit .STRING (dquote ++ "h" ++ dquote))]
    [.BasicLit .STRING (dquote ++ "a" ++ dquote)]
    (fun e he => by
      simp only [List.mem_singleton] at he
      subst he
      exact ⟨"Help", none, _, _, rfl, by decide, rfl⟩)
    (fun l hl => by
      simp only [List.mem_singleton] at hl
      exact ⟨_, _, hl⟩)
  ⟨d, hd, hname (fun o v hm => by simp at hm),
    hvec "prometheus" "NewGaugeVec" none none none [] (Or.inl rfl) (by decide)⟩

/-! ## Claims on the result of the traversal -/

theorem visitAll_of_no_panic (xs : List Node) (descs : List Desc)
    (h : ∀ n ∈ xs, ∀ p, visit n ≠ .error p) :
    visitAll xs descs = .ok (descs ++ xs.filterMap builtDesc) := by
  induction xs generalizing descs with
  | nil => simp [visitAll]
  | cons x xs ih =>
    rw [visitAll]
    cases hv : visit x with
    | error p => exact absurd hv (h x (List.mem_cons_self _ _) p)
    | ok r =>
      simp only
      rw [ih _ (fun n hn => h n (List.mem_cons_of_mem _ hn))]
      cases r with
      | none => simp [List.filterMap_cons, builtDesc, hv]
      | some d => simp [List.filterMap_cons, builtDesc, hv]

/-- When no call of the file raises a run-time failure, the traversal returns the Descs of
the calls that match and build, in the order `ast.Walk` reaches the calls. -/
theorem Inspect_eq_built (file : Node) (h : ∀ n ∈ preorder file, ∀ p, visit n ≠ .error p) :
    Inspect file [] = .ok ((preorder file).filterMap builtDesc) := by
  rw [Inspect_eq_visitAll, visitAll_of_no_panic _ _ h]
  simp

/-- C14: for a file none of whose nodes is a call with target `prometheus` or `promauto`
`.` one of the twelve constructor names, the traversal returns the empty sequence. -/
theorem no_recognized_call_no_desc (file : Node)
    (h : ∀ n ∈ preorder file, ¬ ∃ module obj sel args,
      n = .CallExpr (.SelectorExpr (.Ident module obj) sel) args ∧
      (module = "prometheus" ∨ module = "promauto") ∧
      sel ∈ ["NewGauge", "NewGaugeFunc", "NewGaugeVec", "NewCounter", "NewCounterFunc",
        "NewCounterVec", "NewHistogram", "NewHistogramFunc", "NewHistogramVec", "NewSummary",
        "NewSummaryFunc", "NewSummaryVec"]) :
    Inspect file [] = .ok [] := by
  have hnone : ∀ n ∈ preorder file, visit n = .ok none := by
    intro n hn
    have hno := h n hn
    unfold visit
    split
    · rename_i module obj sel args
      by_cases h1 : module = "prometheus" ∨ module = "promauto"
      · have hs : sel ∉ plainNames ∧ sel ∉ vecNames := by
          constructor <;> intro hmem <;> apply hno <;>
            refine ⟨module, obj, sel, args, rfl, h1, ?_⟩ <;>
            simp only [plainNames, vecNames, List.mem_cons, List.mem_singleton,
              List.not_mem_nil, or_false] at hmem ⊢ <;> tauto
        simp [h1, hs.1, hs.2]
      · simp [h1]
    · rfl
  rw [Inspect_eq_built file (fun n hn p hp => by rw [hnone n hn] at hp; simp at hp)]
  have : (preorder file).filterMap builtDesc = [] := by
    rw [List.filterMap_eq_nil_iff]
    intro n hn
    simp [builtDesc, hnone n hn]
  rw [this]

theorem no_recognized_call_no_desc_witness :
    Inspect (.Other [.CallExpr (.SelectorExpr (.Ident "metrics" none) "NewGauge")
      [.CompositeLit none
        [.KeyValueExpr (.Ident "Name" none) (.BasicLit .STRING (dquote ++ "x" ++ dquote))]]])
      [] = .ok [] :=
  no_recognized_call_no_desc _ (fun n hn => by
    simp only [preorder, preorderList, preorderOpt, List.cons_append, List.nil_append,
      List.append_nil, List.mem_cons, List.mem_singleton, List.not_mem_nil, or_false] at hn
    rcases hn with rfl | rfl | rfl | rfl | rfl | rfl | rfl | rfl | rfl <;> simp)

/-- C15: for a file with the call `prometheus.NewGauge(prometheus.GaugeOpts{Name: "a",
Help: "h"})` followed by `prometheus.NewCounterVec(prometheus.CounterOpts{Name: "x", Help:
"h"}, []string{labelMethod})`, the calls that match and build successfully give the one
Desc of the first call, but the traversal returns no sequence: the second call raises a
run-time failure at its label and the scan stops there. -/
theorem traversal_aborts_on_failing_call :
    (preorder (.Other
        [.CallExpr (.SelectorExpr (.Ident "prometheus" none) "NewGauge")
          [.CompositeLit (some (.SelectorExpr (.Ident "prometheus" none) "GaugeOpts"))
            [.KeyValueExpr (.Ident "Name" none) (.BasicLit .STRING (dquote ++ "a" ++ dquote)),
             .KeyValueExpr (.Ident "Help" none) (.BasicLit .STRING (dquote ++ "h" ++ dquote))]],
         .CallExpr (.SelectorExpr (.Ident "prometheus" none) "NewCounterVec")
          [.CompositeLit (some (.SelectorExpr (.Ident "prometheus" none) "CounterOpts"))
            [.KeyValueExpr (.Ident "Name" none) (.BasicLit .STRING (dquote ++ "x" ++ dquote)),
             .KeyValueExpr (.Ident "Help" none) (.BasicLit .STRING (dquote ++ "h" ++ dquote))],
           .CompositeLit (some (.Other [.Ident "string" none]))
            [.Ident "labelMethod" none]]])).filterMap builtDesc =
      [{ Name := "a", Namespace := "", Subsystem := "", Help := "h", Labels := [],
         Typ := "gauge" }] ∧
    Inspect (.Other
        [.CallExpr (.SelectorExpr (.Ident "prometheus" none) "NewGauge")
          [.CompositeLit (some (.SelectorExpr (.Ident "prometheus" none) "GaugeOpts"))
            [.KeyValueExpr (.Ident "Name" none) (.BasicLit .STRING (dquote ++ "a" ++ dquote)),
             .KeyValueExpr (.Ident "Help" none) (.BasicLit .STRING (dquote ++ "h" ++ dquote))]],
         .CallExpr (.SelectorExpr (.Ident "prometheus" none) "NewCounterVec")
          [.CompositeLit (some (.SelectorExpr (.Ident "prometheus" none) "CounterOpts"))
            [.KeyValueExpr (.Ident "Name" none) (.BasicLit .STRING (dquote ++ "x" ++ dquote)),
             .KeyValueExpr (.Ident "Help" none) (.BasicLit .STRING (dquote ++ "h" ++ dquote))],
           .CompositeLit (some (.Other [.Ident "string" none]))
            [.Ident "labelMethod" none]]]) [] = .error .typeAssertion :=
  ⟨rfl, rfl⟩

/-! ## Claims on raw string literals and on the file filter -/

theorem trimDoubleQuotes_raw (t : String) :
    trimDoubleQuotes (bquote ++ t ++ bquote) = bquote ++ t ++ bquote := by
  have h : (bquote ++ t ++ bquote).data = bq :: (t.data ++ [bq]) := by
    simp [bquote, String.singleton]
  have hne : dq ≠ bq := by decide
  have h1 : TrimPrefix (bq :: (t.data ++ [bq])) [dq] = bq :: (t.data ++ [bq]) := by
    simp [TrimPrefix, List.isPrefixOf, hne]
  have h2 : TrimSuffix (bq :: (t.data ++ [bq])) [dq] = bq :: (t.data ++ [bq]) := by
    simp [TrimSuffix, List.isSuffixOf, List.isPrefixOf, hne]
  apply String.ext
  simp [trimDoubleQuotes, h, h1, h2]

/-- C17: for the raw string literal whose text is `text` (as in a `Help` option written
with back quotes), `parseKV` returns `ok = true` with the literal unchanged, its two back
quotes included, not `text`: `trimDoubleQuotes` strips the double quote only. -/
theorem parseKV_keeps_back_quotes :
    parseKV (.BasicLit .STRING (bquote ++ "text" ++ bquote)) =
      .ok (bquote ++ "text" ++ bquote, true) ∧
    bquote ++ "text" ++ bquote ≠ "text" :=
  ⟨rfl, by decide⟩

theorem HasSuffix_iff (s suffix : String) :
    HasSuffix s suffix = true ↔ ∃ p : String, s = p ++ suffix := by
  unfold HasSuffix
  rw [List.isSuffixOf_iff_suffix]
  constructor
  · rintro ⟨t, ht⟩
    exact ⟨String.mk t, String.ext (by simp [ht])⟩
  · rintro ⟨p, rfl⟩
    exact ⟨p.data, by simp⟩

theorem suffix_under_directory (s dir base : List Char) (hs : '/' ∉ s) :
    s <:+ dir ++ '/' :: base ↔ s <:+ base := by
  constructor
  · intro h
    have h2 : '/' :: base <:+ dir ++ '/' :: base := List.suffix_append _ _
    rcases List.suffix_or_suffix_of_suffix h h2 with h3 | h3
    · rcases List.suffix_cons_iff.mp h3 with h4 | h4
      · exact absurd (h4 ▸ List.mem_cons_self _ _) hs
      · exact h4
    · exact absurd (h3.mem (List.mem_cons_self _ _)) hs
  · intro h
    exact h.trans ((List.suffix_cons _ _).trans (List.suffix_append _ _))

theorem HasSuffix_under_directory (dir base suffix : String) (hs : '/' ∉ suffix.data) :
    HasSuffix (dir ++ "/" ++ base) suffix = HasSuffix base suffix := by
  have h : (dir ++ "/" ++ base).data = dir.data ++ '/' :: base.data := by
    simp [String.data_append]
  rw [Bool.eq_iff_iff]
  unfold HasSuffix
  rw [List.isSuffixOf_iff_suffix, List.isSuffixOf_iff_suffix, h]
  exact suffix_under_directory _ _ _ hs

/-- C19: `isGoSourceCodeFile path` is true exactly when `path` ends with `.go` and does not
end with `_test.go`; for a file `base` in a directory `dir` this is decided by the base
name alone, so a file whose base name ends in `_test.go` is rejected and every other file
whose base name ends in `.go` is accepted. -/
theorem isGoSourceCodeFile_iff :
    (∀ path : String, isGoSourceCodeFile path = true ↔
      (∃ p : String, path = p ++ ".go") ∧ ¬ ∃ p : String, path = p ++ "_test.go") ∧
    (∀ dir base : String, isGoSourceCodeFile (dir ++ "/" ++ base) = true ↔
      (∃ p : String, base = p ++ ".go") ∧ ¬ ∃ p : String, base = p ++ "_test.go") := by
  have h1 : ∀ path : String, isGoSourceCodeFile path = true ↔
      (∃ p : String, path = p ++ ".go") ∧ ¬ ∃ p : String, path = p ++ "_test.go" := by
    intro path
    rw [← HasSuffix_iff, ← HasSuffix_iff]
    unfold isGoSourceCodeFile
    cases HasSuffix path ".go" <;> cases HasSuffix path "_test.go" <;> simp
  refine ⟨h1, fun dir base => ?_⟩
  rw [h1, ← HasSuffix_iff, ← HasSuffix_iff, ← HasSuffix_iff, ← HasSuffix_iff,
    HasSuffix_under_directory dir base ".go" (by decide),
    HasSuffix_under_directory dir base "_test.go" (by decide)]

theorem isGoSourceCodeFile_iff_witness :
    isGoSourceCodeFile "internal/finder/finder.go" = true ∧
    isGoSourceCodeFile "internal/finder/finder_test.go" = false :=
  ⟨(isGoSourceCodeFile_iff.1 "internal/finder/finder.go").mpr
      ⟨⟨"internal/finder/finder", rfl⟩, fun ⟨p, hp⟩ => by
        have := (HasSuffix_iff _ _).mpr ⟨p, hp⟩
        exact absurd this (by decide)⟩,
   by
    have h := (isGoSourceCodeFile_iff.1 "internal/finder/finder_test.go")
    cases hb : isGoSourceCodeFile "internal/finder/finder_test.go" with
    | false => rfl
    | true => exact absurd ⟨"internal/finder/finder", rfl⟩ (h.mp hb).2⟩

end Finder
